import Mathlib

/- Shallow embedding of the plotter repository (src/python/plotter, with the
   legacy variant src/python/analysis): histogram aggregation, underflow and
   overflow folding, panel quantities, stack composition and the registry
   operations of the Plotter class. Bin contents and bin variances are
   modelled as rationals. A ROOT TH1 with n bins is a pair of arrays of
   length n + 2: index 0 is the underflow slot, indices 1..n are the bins,
   index n + 1 is the overflow slot. ROOT stores bin errors as the square
   root of the bin variance, so SetBinError and GetBinError calls are
   recorded here directly on variances: copying an error copies a variance,
   and adding errors in quadrature adds variances. -/

/-- Runtime histogram: per-bin contents and variances, underflow slot at
index 0 and overflow slot at the last index. -/
structure Hist where
  content : List ℚ
  variance : List ℚ
deriving DecidableEq

/-- ROOT TH1.Add: bin-for-bin addition of contents; errors combine in
quadrature, which is bin-for-bin addition of variances. -/
def hAdd (a b : Hist) : Hist :=
  ⟨List.zipWith (· + ·) a.content b.content, List.zipWith (· + ·) a.variance b.variance⟩

/-- Python dict lookup by string key: first (and only) binding wins. -/
def alGet {α : Type} : List (String × α) → String → Option α
  | [], _ => none
  | (k0, v0) :: t, k => if k0 = k then some v0 else alGet t k

/-- Python dict assignment: replace the value in place when the key exists,
append the binding otherwise (insertion order preserved). -/
def alSet {α : Type} : List (String × α) → String → α → List (String × α)
  | [], k, v => [(k, v)]
  | (k0, v0) :: t, k, v => if k0 = k then (k, v) :: t else (k0, v0) :: alSet t k v

/-- One histogram fragment as stored in hist.histograms by _make_hists:
region name, process name and the filled histogram. -/
structure Frag where
  region : String
  proc : String
  hist : Hist
deriving DecidableEq

/-- Nested mapping produced by _merge_hists: region name to process name to
merged histogram. -/
abbrev Merged := List (String × List (String × Hist))

/-- Loop body of Plotter._merge_hists (src/python/plotter/plotter.py:303-311):
the first fragment of a (region, process) group is cloned as the running
total and each later fragment of the group is added with TH1.Add. -/
def mergeStep (m : Merged) (f : Frag) : Merged :=
  match alGet m f.region with
  | none => alSet m f.region (alSet [] f.proc f.hist)
  | some inner =>
    match alGet inner f.proc with
    | none => alSet m f.region (alSet inner f.proc f.hist)
    | some h0 => alSet m f.region (alSet inner f.proc (hAdd h0 f.hist))

/-- Plotter._merge_hists (src/python/plotter/plotter.py:298-315): fold of the
grouping loop over the fragment list, starting from the empty dict. -/
def mergeHists (frags : List Frag) : Merged :=
  frags.foldl mergeStep []

/-- Plotter._merge_hists together with its log trace: the function body is
the grouping loop only, the announced consistency check is a TODO comment
(src/python/plotter/plotter.py:313), so the log trace is always empty. -/
def merge_hists_checked (frags : List Frag) : Merged × List String :=
  (mergeHists frags, [])

/-- Lookup of the merged histogram of one (region, process) pair. -/
def lookup2 (m : Merged) (r p : String) : Option Hist :=
  (alGet m r).bind (fun inner => alGet inner p)

/-- Fragments of one (region, process) group, in input order. -/
def groupHists (frags : List Frag) (r p : String) : List Hist :=
  (frags.filter (fun f => decide (f.region = r ∧ f.proc = p))).map Frag.hist

/-- Merged value of a fragment group: none when the group is empty, else the
fold of TH1.Add over the group seeded with its first member. -/
def sumOpt : List Hist → Option Hist
  | [] => none
  | h :: t => some (t.foldl hAdd h)

/-- Running-total combination: an existing total absorbs further fragments,
an absent one is seeded by the first fragment of the group. -/
def combineOpt : Option Hist → List Hist → Option Hist
  | some h, gs => some (gs.foldl hAdd h)
  | none, gs => sumOpt gs

/-- Per-array part of Plotter._add_underflow_overflow
(src/python/plotter/plotter.py:318-336) on one merged histogram with n bins
(n is GetNbinsX, the array has length n + 2). A cloned and Reset temp array
receives the underflow slot at bin 1 and the overflow slot at bin n, the
slots of the original are zeroed, and temp is added back with TH1.Add.
Contents and variances undergo exactly the same steps, because SetBinError
with a GetBinError value copies a variance, so the function is stated once
per array. -/
def foldArr (n : ℕ) (uf ov : Bool) (l : List ℚ) : List ℚ :=
  let t0 := List.replicate l.length (0 : ℚ)
  let p1 := if uf then (t0.set 1 (l.getD 0 0), l.set 0 0) else (t0, l)
  let p2 := if ov then (p1.1.set n (p1.2.getD (n + 1) 0), p1.2.set (n + 1) 0) else p1
  List.zipWith (· + ·) p2.2 p2.1

/-- Plotter._add_underflow_overflow applied to one merged histogram: returns
the histogram unchanged when both flags are off. -/
def foldUO (uf ov : Bool) (h : Hist) : Hist :=
  if uf = false ∧ ov = false then h
  else
    let n := h.content.length - 2
    ⟨foldArr n uf ov h.content, foldArr n uf ov h.variance⟩

/-- ROOT TH1.Divide bin rule with the default option: content a/b, with the
whole bin zeroed when the denominator content is 0; the propagated variance
is (va b^2 + vb a^2) / b^4. Each bin is a (content, variance) pair. -/
def divideBin (p q : ℚ × ℚ) : ℚ × ℚ :=
  if q.1 = 0 then (0, 0)
  else (p.1 / q.1, (p.2 * q.1 ^ 2 + q.2 * p.1 ^ 2) / q.1 ^ 4)

/-- PanelElement._divide (src/python/plotter/histogram.py:10-18): clone the
first histogram and TH1.Divide it by the second. -/
def hDivide (a b : Hist) : Hist :=
  let bins := List.zipWith divideBin (a.content.zip a.variance) (b.content.zip b.variance)
  ⟨bins.map Prod.fst, bins.map Prod.snd⟩

/-- Loop body of PanelElement._error_band (src/python/plotter/histogram.py:28-31)
at bin i: when the content of bin i is positive, set the content of the
clone to 1 and its error to error(i)/content(i) of the input, that is its
variance to variance(i)/content(i)^2. The loop at step i writes only bin i,
so when it reads bin i the clone still agrees with the input there; the
reads are therefore taken from the input a. -/
def bandStep (a : Hist) (h : Hist) (i : ℕ) : Hist :=
  if 0 < a.content.getD i 0 then
    ⟨h.content.set i 1, h.variance.set i (a.variance.getD i 0 / a.content.getD i 0 ^ 2)⟩
  else h

/-- PanelElement._error_band (src/python/plotter/histogram.py:21-32): clone
the input and run the loop over bins 1..n. -/
def error_band (a : Hist) : Hist :=
  (List.range' 1 (a.content.length - 2)).foldl (bandStep a) a

/-- Draw role of a process. Modelled from the spec: the constants module
(plotter/constants.py, plotter/styles.py) is not under src; per the spec a
ProcessTemplate carries a draw role stacked, line-overlay or point-overlay. -/
inductive Style
  | stacked
  | line
  | points
deriving DecidableEq

/-- ProcessTemplate (src/python/plotter/process.py:8-14): canonical identity
of a named dataset group. The label default (name when the label is absent)
is resolved before templates are built, see Process.build. -/
structure ProcessTemplate where
  name : String
  color : Int
  style : Style
  error_bars : Bool
  label : String
deriving DecidableEq

/-- Process (src/python/plotter/process.py:16-53): one physical input file of
a dataset group. The file-existence check and the RDataFrame handle are
external input validation and are not modelled. -/
structure Process where
  name : String
  file_path : String
  tree_name : String
  color : Int
  weight : Option String
  style : Style
  error_bars : Bool
  label : String
deriving DecidableEq

/-- Constructor of Process: an absent label defaults to the process name
(ProcessTemplate.__init__, src/python/plotter/process.py:14). -/
def Process.build (name file_path tree_name : String) (color : Int)
    (weight : Option String) (style : Style) (error_bars : Bool)
    (label : Option String) : Process :=
  ⟨name, file_path, tree_name, color, weight, style, error_bars, label.getD name⟩

/-- Template derived from a process when its name is seen first
(src/python/plotter/plotter.py:89). -/
def templateOf (p : Process) : ProcessTemplate :=
  ⟨p.name, p.color, p.style, p.error_bars, p.label⟩

/-- Lookup of the first template with a given name, as in
next((p for p in self.unique_processes if p.name == process.name), None). -/
def findTemplate : List ProcessTemplate → String → Option ProcessTemplate
  | [], _ => none
  | t :: ts, n => if t.name = n then some t else findTemplate ts n

/-- ROOT color constant kBlack. -/
def kBlack : Int := 1

/-- PanelElement configuration (src/python/plotter/histogram.py:35-56): the
declared input identifiers, color, draw style and error-bar flag. The
combining function field is applied in _make_plots; its two builtin values
are modelled separately as hDivide and error_band. -/
structure PanelElement where
  values : List String
  color : Option Int
  style : Style
  error_bars : Bool
deriving DecidableEq

/-- Panel configuration (src/python/plotter/histogram.py:59-84). -/
structure Panel where
  elements : List PanelElement
  y_label : String
  y_min : ℚ
  y_max : ℚ
  reference_line_heights : List ℚ
  reference_line_colors : List Int
deriving DecidableEq

/-- Panel.__init__ (src/python/plotter/histogram.py:60-84) together with its
warning trace: when there are more heights than colors the colors are padded
with kBlack one by one; when there are more colors than heights the colors
are truncated to the length of the heights list. -/
def Panel.init (elements : List PanelElement) (y_label : String)
    (y_min y_max : ℚ) (reference_line_heights : List ℚ)
    (reference_line_colors : List Int) : Panel × List String :=
  if reference_line_colors.length < reference_line_heights.length then
    (⟨elements, y_label, y_min, y_max, reference_line_heights,
      reference_line_colors ++
        List.replicate (reference_line_heights.length - reference_line_colors.length) kBlack⟩,
     ["more reference_line_heights than reference_line_colors provided. Padding with ROOT.kBlack."])
  else if reference_line_heights.length < reference_line_colors.length then
    (⟨elements, y_label, y_min, y_max, reference_line_heights,
      reference_line_colors.take reference_line_heights.length⟩,
     ["more reference_line_colors than reference_line_heights provided. Truncating reference_line_colors."])
  else
    (⟨elements, y_label, y_min, y_max, reference_line_heights, reference_line_colors⟩, [])

/-- Region configuration. The file plotter/region.py is not under src; the
fields are those of src/python/analysis/region.py, which match every use in
src/python/plotter/plotter.py. -/
structure Region where
  name : String
  selection : String
  include_processes : Option (List String)
  exclude_processes : Option (List String)
  include_histograms : Option (List String)
  exclude_histograms : Option (List String)
deriving DecidableEq

/-- Histogram configuration (src/python/plotter/histogram.py:87-151),
restricted to the fields read by the operations modelled here; the purely
graphical fields (labels, binning, log flags, tags) are omitted. -/
structure Histogram where
  name : String
  underflow : Bool
  overflow : Bool
  include_processes : Option (List String)
  exclude_processes : Option (List String)
  panel : Option Panel
deriving DecidableEq

/-- Histogram2D configuration (src/python/plotter/histogram.py:154-218),
restricted likewise. -/
structure Histogram2D where
  name : String
  panel : Option Panel
deriving DecidableEq

/-- Registry state of the Plotter (src/python/plotter/plotter.py:29-33). -/
structure PlotterState where
  regions : List Region
  histograms : List Histogram
  histograms2D : List Histogram2D
  processes : List Process
  unique_processes : List ProcessTemplate
deriving DecidableEq

/-- Plotter state right after construction. -/
def initState : PlotterState :=
  ⟨[], [], [], [], []⟩

/-- Plotter.add_region (src/python/plotter/plotter.py:41-51) with its warning
trace: an existing region of the same name is warned about and removed, the
new region is appended. -/
def add_region (s : PlotterState) (r : Region) : PlotterState × List String :=
  if r.name ∈ s.regions.map Region.name then
    ({ s with regions := s.regions.filter (fun x => x.name != r.name) ++ [r] },
     ["Region already exists. Will overwrite."])
  else
    ({ s with regions := s.regions ++ [r] }, [])

/-- Plotter.add_histogram, 1D branch (src/python/plotter/plotter.py:57-65):
an existing histogram of the same name is warned about and removed, the new
one is appended. -/
def add_histogram (s : PlotterState) (h : Histogram) : PlotterState × List String :=
  if h.name ∈ s.histograms.map Histogram.name then
    ({ s with histograms := s.histograms.filter (fun x => x.name != h.name) ++ [h] },
     ["Histogram already exists in plotter. Will overwrite existing histogram."])
  else
    ({ s with histograms := s.histograms ++ [h] }, [])

/-- Panel removal of the 2D branch (src/python/plotter/plotter.py:69-71):
panel configuration is not implemented for 2D histograms and is dropped. -/
def clearPanel2D (h : Histogram2D) : Histogram2D :=
  if h.panel.isSome then { h with panel := none } else h

/-- Plotter.add_histogram, 2D branch (src/python/plotter/plotter.py:67-79):
a present panel is warned about and dropped, an existing 2D histogram of the
same name is warned about and removed, the new one is appended. -/
def add_histogram2D (s : PlotterState) (h0 : Histogram2D) : PlotterState × List String :=
  let h := clearPanel2D h0
  let w0 : List String :=
    if h0.panel.isSome then
      ["Panel configuration for 2D histogram is not yet implemented. Skipping panel plot."]
    else []
  if h.name ∈ s.histograms2D.map Histogram2D.name then
    ({ s with histograms2D := s.histograms2D.filter (fun x => x.name != h.name) ++ [h] },
     w0 ++ ["Histogram already exists in plotter. Will overwrite existing 2D histogram."])
  else
    ({ s with histograms2D := s.histograms2D ++ [h] }, w0)

/-- Plotter.add_process (src/python/plotter/plotter.py:82-104) with its
warning trace: the first process of a name creates the template; a later
process of the same name is compared field by field against the stored
template, one warning per differing field, and the template is never
updated. The process itself is always appended. -/
def add_process (s : PlotterState) (p : Process) : PlotterState × List String :=
  match findTemplate s.unique_processes p.name with
  | none =>
    ({ s with unique_processes := s.unique_processes ++ [templateOf p],
              processes := s.processes ++ [p] }, [])
  | some tpl =>
    let warns : List String :=
      (if p.color ≠ tpl.color then
        ["Process already exists with different color. Skipping color update."] else []) ++
      (if p.style ≠ tpl.style then
        ["Process already exists with different style. Skipping style update."] else []) ++
      (if p.error_bars ≠ tpl.error_bars then
        ["Process already exists with different error bars setting. Skipping error bars update."] else []) ++
      (if p.label ≠ tpl.label then
        ["Process already exists with different label. Skipping label update."] else [])
    ({ s with processes := s.processes ++ [p] }, warns)

/-- Registry commands of the Plotter configuration phase. -/
inductive PlotterCmd
  | addRegion (r : Region)
  | addHistogram (h : Histogram)
  | addHistogram2D (h : Histogram2D)
  | addProcess (p : Process)

/-- One registry call on the plotter state. -/
def applyCmd (s : PlotterState) (c : PlotterCmd) : PlotterState :=
  match c with
  | .addRegion r => (add_region s r).1
  | .addHistogram h => (add_histogram s h).1
  | .addHistogram2D h => (add_histogram2D s h).1
  | .addProcess p => (add_process s p).1

/-- Any sequence of registry calls starting from a fresh plotter. -/
def runCmds (cmds : List PlotterCmd) : PlotterState :=
  cmds.foldl applyCmd initState

/-- ROOT TH1.Integral(): sum of the contents of bins 1..n; the underflow and
overflow slots are excluded. -/
def integral (h : Hist) : ℚ :=
  ((h.content.take (h.content.length - 1)).drop 1).sum

/-- Sort relation of Plotter._separate_hists (src/python/plotter/plotter.py:567-568):
ascending histogram integral. -/
def stackLE (a b : ProcessTemplate × Hist) : Prop :=
  integral a.2 ≤ integral b.2

instance : DecidableRel stackLE :=
  fun a b => decidable_of_iff (integral a.2 ≤ integral b.2) Iff.rfl

instance : IsTotal (ProcessTemplate × Hist) stackLE :=
  ⟨fun a b => le_total (integral a.2) (integral b.2)⟩

instance : IsTrans (ProcessTemplate × Hist) stackLE :=
  ⟨fun _ _ _ hab hbc => le_trans hab hbc⟩

/-- Loop body of Plotter._separate_hists (src/python/plotter/plotter.py:559-565):
a template whose name has a merged histogram contributes the (template,
clone) pair to the stacked group when its style is stacked, else to the
unstacked group. -/
def separateStep (merged : List (String × Hist))
    (acc : List (ProcessTemplate × Hist) × List (ProcessTemplate × Hist))
    (t : ProcessTemplate) :
    List (ProcessTemplate × Hist) × List (ProcessTemplate × Hist) :=
  match alGet merged t.name with
  | none => acc
  | some h =>
    if t.style = Style.stacked then (acc.1 ++ [(t, h)], acc.2)
    else (acc.1, acc.2 ++ [(t, h)])

/-- Plotter._separate_hists (src/python/plotter/plotter.py:555-569): partition
the merged histograms along the template styles, then sort each group
ascending by integral (list.sort with an integral key is a stable ascending
sort, modelled by insertion sort). -/
def separate_hists (ups : List ProcessTemplate) (merged : List (String × Hist)) :
    List (ProcessTemplate × Hist) × List (ProcessTemplate × Hist) :=
  let pairs := ups.foldl (separateStep merged) ([], [])
  (List.insertionSort stackLE pairs.1, List.insertionSort stackLE pairs.2)

/-- Matched (template, histogram) pairs in template order: the templates
whose name owns a merged histogram. -/
def matchedPairs (ups : List ProcessTemplate) (merged : List (String × Hist)) :
    List (ProcessTemplate × Hist) :=
  ups.filterMap (fun t => (alGet merged t.name).map (fun h => (t, h)))

/-- Total histogram of Plotter._draw_stack (src/python/plotter/plotter.py:572-586):
none for an empty stack group (the function returns the pair (None, None)),
else the TH1.Add fold over the group seeded with its first member. -/
def draw_stack_total : List (ProcessTemplate × Hist) → Option Hist
  | [] => none
  | (_, h) :: t => some (t.foldl (fun acc q => hAdd acc q.2) h)

/-- Message of the Python AttributeError raised by calling Clone on None. -/
def attrErrorMsg : String :=
  "AttributeError: NoneType object has no attribute Clone"

/-- Message of the Python KeyError raised by indexing a dict with a missing
process name. -/
def keyErrorMsg : String :=
  "KeyError: process name missing from merged histograms"

/-- One iteration of the panel-element input retrieval loop of
Plotter._make_plots (src/python/plotter/plotter.py:400-407). The literal
stack sentinel is resolved by calling Clone on cached_stack_total, which
raises AttributeError when the stack total is None; any other identifier is
looked up among the unique processes, a missing template appends None, and
a found template indexes the merged dict, raising KeyError when absent. -/
def retrieveStep (stackTotal : Option Hist) (ups : List ProcessTemplate)
    (merged : List (String × Hist)) (acc : Except String (List (Option Hist)))
    (v : String) : Except String (List (Option Hist)) :=
  match acc with
  | .error e => .error e
  | .ok l =>
    if v = "stack" then
      match stackTotal with
      | none => .error attrErrorMsg
      | some h => .ok (l ++ [some h])
    else
      match findTemplate ups v with
      | none => .ok (l ++ [none])
      | some t =>
        match alGet merged t.name with
        | some h => .ok (l ++ [some h])
        | none => .error keyErrorMsg

/-- Input retrieval of one panel element in Plotter._make_plots
(src/python/plotter/plotter.py:399-410): the loop over the declared values.
A None entry in the result list is caught afterwards by the all() guard and
the element is skipped with a logged error; an Except.error is a raised
Python exception that escapes _make_plots. -/
def retrieve_value_hists (ups : List ProcessTemplate)
    (merged : List (String × Hist)) (stackTotal : Option Hist)
    (values : List String) : Except String (List (Option Hist)) :=
  values.foldl (retrieveStep stackTotal ups merged) (Except.ok [])

/-- Concrete two-fragment input used to witness the merge theorem. -/
def c1frags : List Frag :=
  [⟨"SR", "mc", ⟨[1, 10], [2, 20]⟩⟩, ⟨"SR", "mc", ⟨[3, 30], [4, 40]⟩⟩]

/-- Merged histogram of the group of c1frags. -/
def c1merged : Hist :=
  ⟨[4, 40], [6, 60]⟩

/- Generic list facts used throughout the development. -/

theorem zipWith_add_getD (a b : List ℚ) (i : ℕ) (ha : i < a.length) (hb : i < b.length) :
    (List.zipWith (· + ·) a b).getD i 0 = a.getD i 0 + b.getD i 0 := by
  have hz : i < (List.zipWith (· + ·) a b).length := by
    rw [List.length_zipWith]; exact lt_min ha hb
  rw [List.getD_eq_getElem _ _ hz, List.getD_eq_getElem _ _ ha, List.getD_eq_getElem _ _ hb,
    List.getElem_zipWith]

theorem getD_set (l : List ℚ) (i j : ℕ) (v d : ℚ) :
    (l.set i v).getD j d = if i = j ∧ i < l.length then v else l.getD j d := by
  rw [List.getD_eq_getElem?_getD, List.getElem?_set, List.getD_eq_getElem?_getD]
  by_cases hij : i = j
  · subst hij
    by_cases hl : i < l.length
    · simp [hl]
    · simp [hl, List.getElem?_eq_none (by omega : l.length ≤ i)]
  · simp [hij]

theorem alGet_alSet {α : Type} (m : List (String × α)) (k k1 : String) (v : α) :
    alGet (alSet m k v) k1 = if k1 = k then some v else alGet m k1 := by
  induction m with
  | nil =>
    by_cases h : k1 = k
    · subst h; simp [alSet, alGet]
    · simp [alSet, alGet, h, Ne.symm h]
  | cons kv t ih =>
    obtain ⟨k0, v0⟩ := kv
    by_cases h0 : k0 = k
    · subst h0
      by_cases h1 : k1 = k0
      · subst h1; simp [alSet, alGet]
      · simp [alSet, alGet, h1, Ne.symm h1]
    · by_cases h1 : k1 = k0
      · have hk : ¬ k1 = k := fun e => h0 (h1.symm.trans e)
        simp [alSet, alGet, h0, h1.symm, hk]
      · simp [alSet, alGet, h0, Ne.symm h1, ih]

/- Aggregator: characterization of the merged map (claim C1). -/

theorem lookup2_alSet (m : Merged) (r0 : String) (inner : List (String × Hist))
    (r p : String) :
    lookup2 (alSet m r0 inner) r p = if r = r0 then alGet inner p else lookup2 m r p := by
  unfold lookup2
  rw [alGet_alSet]
  by_cases h : r = r0 <;> simp [h]

theorem lookup2_mergeStep (m : Merged) (f : Frag) (r p : String) :
    lookup2 (mergeStep m f) r p =
      if f.region = r ∧ f.proc = p then
        some ((lookup2 m r p).elim f.hist (fun h0 => hAdd h0 f.hist))
      else lookup2 m r p := by
  rcases hreg : alGet m f.region with _ | inner
  · simp only [mergeStep, hreg]
    rw [lookup2_alSet]
    by_cases hr : r = f.region
    · have hm : lookup2 m r p = none := by
        unfold lookup2; rw [hr, hreg]; rfl
      rw [if_pos hr, hm]
      by_cases hp : f.proc = p
      · rw [if_pos ⟨hr.symm, hp⟩]
        simp [alSet, alGet, hp]
      · rw [if_neg (fun hc => hp hc.2)]
        simp [alSet, alGet, hp, hm]
    · rw [if_neg hr, if_neg (fun hc => hr hc.1.symm)]
  · have hm : lookup2 m r p = if r = f.region then alGet inner p else lookup2 m r p := by
      by_cases hr : r = f.region
      · unfold lookup2; rw [hr, hreg]; simp [hr]
      · simp [hr]
    rcases hproc : alGet inner f.proc with _ | h0
    · simp only [mergeStep, hreg, hproc]
      rw [lookup2_alSet]
      by_cases hr : r = f.region
      · rw [if_pos hr, alGet_alSet]
        by_cases hp : p = f.proc
        · have hnone : lookup2 m r p = none := by
            rw [hm, if_pos hr, hp, hproc]
          rw [if_pos hp, if_pos ⟨hr.symm, hp.symm⟩, hnone]; rfl
        · rw [if_neg hp, if_neg (fun hc => hp hc.2.symm), hm, if_pos hr]
      · rw [if_neg hr, if_neg (fun hc => hr hc.1.symm)]
    · simp only [mergeStep, hreg, hproc]
      rw [lookup2_alSet]
      by_cases hr : r = f.region
      · rw [if_pos hr, alGet_alSet]
        by_cases hp : p = f.proc
        · have hsome : lookup2 m r p = some h0 := by
            rw [hm, if_pos hr, hp, hproc]
          rw [if_pos hp, if_pos ⟨hr.symm, hp.symm⟩, hsome]; rfl
        · rw [if_neg hp, if_neg (fun hc => hp hc.2.symm), hm, if_pos hr]
      · rw [if_neg hr, if_neg (fun hc => hr hc.1.symm)]

theorem groupHists_cons (f : Frag) (t : List Frag) (r p : String) :
    groupHists (f :: t) r p =
      if f.region = r ∧ f.proc = p then f.hist :: groupHists t r p
      else groupHists t r p := by
  simp only [groupHists, List.filter_cons]
  by_cases h : f.region = r ∧ f.proc = p <;> simp [h]

theorem combineOpt_nil (o : Option Hist) : combineOpt o [] = o := by
  cases o <;> rfl

theorem combineOpt_cons (o : Option Hist) (h : Hist) (gs : List Hist) :
    combineOpt o (h :: gs) = combineOpt (some (o.elim h (fun h0 => hAdd h0 h))) gs := by
  cases o <;> rfl

theorem lookup2_foldl (frags : List Frag) (m : Merged) (r p : String) :
    lookup2 (frags.foldl mergeStep m) r p =
      combineOpt (lookup2 m r p) (groupHists frags r p) := by
  induction frags generalizing m with
  | nil => simp [groupHists, combineOpt_nil]
  | cons f t ih =>
    rw [List.foldl_cons, ih, lookup2_mergeStep, groupHists_cons]
    by_cases h : f.region = r ∧ f.proc = p
    · rw [if_pos h, if_pos h, combineOpt_cons]
    · rw [if_neg h, if_neg h]

theorem lookup2_mergeHists (frags : List Frag) (r p : String) :
    lookup2 (mergeHists frags) r p = sumOpt (groupHists frags r p) :=
  lookup2_foldl frags [] r p

theorem foldl_hAdd_spec (t : List Hist) (h : Hist) (n : ℕ)
    (hh : h.content.length = n ∧ h.variance.length = n)
    (ht : ∀ g ∈ t, g.content.length = n ∧ g.variance.length = n) :
    (t.foldl hAdd h).content.length = n ∧ (t.foldl hAdd h).variance.length = n ∧
    ∀ i, i < n →
      (t.foldl hAdd h).content.getD i 0 =
        h.content.getD i 0 + (t.map (fun g => g.content.getD i 0)).sum ∧
      (t.foldl hAdd h).variance.getD i 0 =
        h.variance.getD i 0 + (t.map (fun g => g.variance.getD i 0)).sum := by
  induction t generalizing h with
  | nil =>
    refine ⟨hh.1, hh.2, fun i _ => ⟨?_, ?_⟩⟩ <;> simp
  | cons g t ih =>
    have hg := ht g (List.mem_cons_self g t)
    have hh1 : (hAdd h g).content.length = n ∧ (hAdd h g).variance.length = n := by
      simp [hAdd, List.length_zipWith, hh.1, hh.2, hg.1, hg.2]
    have ht1 : ∀ x ∈ t, x.content.length = n ∧ x.variance.length = n :=
      fun x hx => ht x (List.mem_cons_of_mem g hx)
    obtain ⟨l1, l2, hbin⟩ := ih (hAdd h g) hh1 ht1
    refine ⟨l1, l2, fun i hi => ?_⟩
    obtain ⟨b1, b2⟩ := hbin i hi
    have hc : (hAdd h g).content.getD i 0 = h.content.getD i 0 + g.content.getD i 0 :=
      zipWith_add_getD _ _ i (hh.1 ▸ hi) (hg.1 ▸ hi)
    have hv : (hAdd h g).variance.getD i 0 = h.variance.getD i 0 + g.variance.getD i 0 :=
      zipWith_add_getD _ _ i (hh.2 ▸ hi) (hg.2 ▸ hi)
    constructor
    · rw [List.foldl_cons, b1, hc, List.map_cons, List.sum_cons]; ring
    · rw [List.foldl_cons, b2, hv, List.map_cons, List.sum_cons]; ring

theorem sumOpt_getD (gs : List Hist) (m : Hist) (n : ℕ)
    (hlen : ∀ g ∈ gs, g.content.length = n ∧ g.variance.length = n)
    (hm : sumOpt gs = some m) :
    ∀ i, i < n →
      m.content.getD i 0 = (gs.map (fun g => g.content.getD i 0)).sum ∧
      m.variance.getD i 0 = (gs.map (fun g => g.variance.getD i 0)).sum := by
  cases gs with
  | nil => simp [sumOpt] at hm
  | cons g t =>
    simp only [sumOpt, Option.some_inj] at hm
    subst hm
    intro i hi
    have hg := hlen g (List.mem_cons_self g t)
    have ht : ∀ x ∈ t, x.content.length = n ∧ x.variance.length = n :=
      fun x hx => hlen x (List.mem_cons_of_mem g hx)
    obtain ⟨_, _, hbin⟩ := foldl_hAdd_spec t g n hg ht
    obtain ⟨b1, b2⟩ := hbin i hi
    exact ⟨by rw [b1, List.map_cons, List.sum_cons], by rw [b2, List.map_cons, List.sum_cons]⟩

/-- C1: for every fragment sequence handed to Plotter._merge_hists, the
output maps each region to each process name to a histogram whose per-bin
content is the elementwise sum of the contents of the fragments of that
(region, process) group and whose per-bin variance is the elementwise sum
of their variances, and these per-bin values do not depend on the order of
the fragment list. -/
theorem merge_group_sum (frags : List Frag) (r p : String) (n : ℕ) (m : Hist)
    (hlen : ∀ g ∈ groupHists frags r p, g.content.length = n ∧ g.variance.length = n)
    (hm : lookup2 (mergeHists frags) r p = some m) :
    (∀ i, i < n →
      m.content.getD i 0 = ((groupHists frags r p).map (fun g => g.content.getD i 0)).sum ∧
      m.variance.getD i 0 = ((groupHists frags r p).map (fun g => g.variance.getD i 0)).sum) ∧
    ∀ frags1 : List Frag, frags1.Perm frags →
      ∃ m1, lookup2 (mergeHists frags1) r p = some m1 ∧
        ∀ i, i < n → m1.content.getD i 0 = m.content.getD i 0 ∧
          m1.variance.getD i 0 = m.variance.getD i 0 := by
  have hsum : sumOpt (groupHists frags r p) = some m :=
    (lookup2_mergeHists frags r p).symm.trans hm
  refine ⟨sumOpt_getD _ m n hlen hsum, ?_⟩
  intro frags1 hperm
  have hgp : (groupHists frags1 r p).Perm (groupHists frags r p) :=
    (hperm.filter _).map _
  have hlen1 : ∀ g ∈ groupHists frags1 r p, g.content.length = n ∧ g.variance.length = n :=
    fun g hg => hlen g (hgp.mem_iff.mp hg)
  rcases hg1 : groupHists frags1 r p with _ | ⟨g1, gs1⟩
  · exfalso
    have hlen0 := hgp.length_eq
    rw [hg1] at hlen0
    rcases hg : groupHists frags r p with _ | ⟨a, b⟩
    · rw [hg] at hsum; simp [sumOpt] at hsum
    · rw [hg] at hlen0; simp at hlen0
  · have hm1 : sumOpt (groupHists frags1 r p) = some (gs1.foldl hAdd g1) := by
      rw [hg1]; rfl
    refine ⟨gs1.foldl hAdd g1, by rw [lookup2_mergeHists, hm1], fun i hi => ?_⟩
    obtain ⟨c1, v1⟩ := sumOpt_getD _ _ n hlen1 hm1 i hi
    obtain ⟨c2, v2⟩ := sumOpt_getD _ m n hlen hsum i hi
    constructor
    · rw [c1, c2]; exact (hgp.map _).sum_eq
    · rw [v1, v2]; exact (hgp.map _).sum_eq

/-- Witness for merge_group_sum: a concrete group of two fragments in region
SR for process mc. -/
theorem merge_group_sum_witness :
    ((∀ g ∈ groupHists c1frags "SR" "mc", g.content.length = 2 ∧ g.variance.length = 2) ∧
      lookup2 (mergeHists c1frags) "SR" "mc" = some c1merged) ∧
    ((∀ i, i < 2 →
        c1merged.content.getD i 0 =
          ((groupHists c1frags "SR" "mc").map (fun g => g.content.getD i 0)).sum ∧
        c1merged.variance.getD i 0 =
          ((groupHists c1frags "SR" "mc").map (fun g => g.variance.getD i 0)).sum) ∧
      ∀ frags1 : List Frag, frags1.Perm c1frags →
        ∃ m1, lookup2 (mergeHists frags1) "SR" "mc" = some m1 ∧
          ∀ i, i < 2 → m1.content.getD i 0 = c1merged.content.getD i 0 ∧
            m1.variance.getD i 0 = c1merged.variance.getD i 0) :=
  ⟨⟨by decide,
      by norm_num [c1frags, c1merged, mergeHists, mergeStep, alGet, alSet, lookup2, hAdd]⟩,
    merge_group_sum c1frags "SR" "mc" 2 c1merged (by decide)
      (by norm_num [c1frags, c1merged, mergeHists, mergeStep, alGet, alSet, lookup2, hAdd])⟩

/- Folding of underflow and overflow slots (claim C2). -/

theorem foldArr_true_eq (n : ℕ) (l : List ℚ) :
    foldArr n true true l =
      List.zipWith (· + ·) ((l.set 0 0).set (n + 1) 0)
        (((List.replicate l.length (0 : ℚ)).set 1 (l.getD 0 0)).set n
          ((l.set 0 0).getD (n + 1) 0)) := rfl

theorem foldArr_length (n : ℕ) (uf ov : Bool) (l : List ℚ) :
    (foldArr n uf ov l).length = l.length := by
  unfold foldArr
  cases uf <;> cases ov <;>
    simp [List.length_zipWith, List.length_set, List.length_replicate]

theorem replicate_getD (n j : ℕ) : (List.replicate n (0 : ℚ)).getD j 0 = 0 := by
  rcases lt_or_ge j n with h | h
  · rw [List.getD_eq_getElem _ _ (by simpa using h), List.getElem_replicate]
  · rw [List.getD_eq_default _ _ (by simpa using h)]

theorem foldArr_getD (n : ℕ) (l : List ℚ) (hn : 2 ≤ n) (hl : l.length = n + 2) (j : ℕ) :
    (foldArr n true true l).getD j 0 =
      if j = 0 then 0
      else if j = 1 then l.getD 1 0 + l.getD 0 0
      else if j = n then l.getD n 0 + l.getD (n + 1) 0
      else if j = n + 1 then 0
      else l.getD j 0 := by
  rw [foldArr_true_eq]
  rcases lt_or_ge j (n + 2) with hj | hj
  · have h1 : j < ((l.set 0 0).set (n + 1) 0).length := by
      simp only [List.length_set, hl]; omega
    have h2 : j < (((List.replicate l.length (0 : ℚ)).set 1 (l.getD 0 0)).set n
        ((l.set 0 0).getD (n + 1) 0)).length := by
      simp only [List.length_set, List.length_replicate, hl]; omega
    rw [zipWith_add_getD _ _ j h1 h2]
    simp only [getD_set, replicate_getD, List.length_set, List.length_replicate, hl]
    by_cases hj0 : j = 0
    · subst hj0
      rw [if_neg (by omega : ¬(n + 1 = 0 ∧ n + 1 < n + 2)),
        if_pos (⟨rfl, by omega⟩ : 0 = 0 ∧ 0 < n + 2),
        if_neg (by omega : ¬(n = 0 ∧ n < n + 2)),
        if_neg (by omega : ¬(1 = 0 ∧ 1 < n + 2)), if_pos rfl]
      ring
    by_cases hj1 : j = 1
    · subst hj1
      rw [if_neg (by omega : ¬(n + 1 = 1 ∧ n + 1 < n + 2)),
        if_neg (by omega : ¬(0 = 1 ∧ 0 < n + 2)),
        if_neg (by omega : ¬(n = 1 ∧ n < n + 2)),
        if_pos (⟨rfl, by omega⟩ : 1 = 1 ∧ 1 < n + 2),
        if_neg (by omega : ¬(1 = 0)), if_pos rfl]
    by_cases hjn : j = n
    · rw [hjn]
      rw [if_neg (by omega : ¬(n + 1 = n ∧ n + 1 < n + 2)),
        if_neg (by omega : ¬(0 = n ∧ 0 < n + 2)),
        if_pos (⟨rfl, by omega⟩ : n = n ∧ n < n + 2),
        if_neg (by omega : ¬(0 = n + 1 ∧ 0 < n + 2)),
        if_neg (by omega : ¬(n = 0)), if_neg (by omega : ¬(n = 1)), if_pos rfl]
    by_cases hjn1 : j = n + 1
    · subst hjn1
      rw [if_pos (⟨rfl, by omega⟩ : n + 1 = n + 1 ∧ n + 1 < n + 2),
        if_neg (by omega : ¬(n = n + 1 ∧ n < n + 2)),
        if_neg (by omega : ¬(1 = n + 1 ∧ 1 < n + 2)),
        if_neg (by omega : ¬(n + 1 = 0)), if_neg (by omega : ¬(n + 1 = 1)),
        if_neg (by omega : ¬(n + 1 = n)), if_pos rfl]
      ring
    · rw [if_neg (by omega : ¬(n + 1 = j ∧ n + 1 < n + 2)),
        if_neg (by omega : ¬(0 = j ∧ 0 < n + 2)),
        if_neg (by omega : ¬(n = j ∧ n < n + 2)),
        if_neg (by omega : ¬(1 = j ∧ 1 < n + 2)),
        if_neg hj0, if_neg hj1, if_neg hjn, if_neg hjn1]
      ring
  · have hz : (List.zipWith (· + ·) ((l.set 0 0).set (n + 1) 0)
        (((List.replicate l.length (0 : ℚ)).set 1 (l.getD 0 0)).set n
          ((l.set 0 0).getD (n + 1) 0))).length ≤ j := by
      simp only [List.length_zipWith, List.length_set, List.length_replicate, hl]
      omega
    rw [List.getD_eq_default _ _ hz]
    have e0 : ¬ j = 0 := by omega
    have e1 : ¬ j = 1 := by omega
    have e2 : ¬ j = n := by omega
    have e3 : ¬ j = n + 1 := by omega
    rw [if_neg e0, if_neg e1, if_neg e2, if_neg e3,
      List.getD_eq_default _ _ (by omega : l.length ≤ j)]

theorem foldArr_idem (n : ℕ) (l : List ℚ) (hn : 2 ≤ n) (hl : l.length = n + 2) :
    foldArr n true true (foldArr n true true l) = foldArr n true true l := by
  have hlen1 : (foldArr n true true l).length = n + 2 := by rw [foldArr_length, hl]
  have f0 : (foldArr n true true l).getD 0 0 = 0 := by
    rw [foldArr_getD n l hn hl 0]; simp
  have fn1 : (foldArr n true true l).getD (n + 1) 0 = 0 := by
    rw [foldArr_getD n l hn hl (n + 1)]
    rw [if_neg (by omega : ¬(n + 1 = 0)), if_neg (by omega : ¬(n + 1 = 1)),
      if_neg (by omega : ¬(n + 1 = n)), if_pos rfl]
  apply List.ext_getElem
  · rw [foldArr_length, foldArr_length]
  · intro j h1 h2
    rw [← List.getD_eq_getElem _ 0 h1, ← List.getD_eq_getElem _ 0 h2]
    rw [foldArr_getD n _ hn hlen1 j]
    by_cases hj0 : j = 0
    · subst hj0; rw [if_pos rfl, f0]
    rw [if_neg hj0]
    by_cases hj1 : j = 1
    · subst hj1
      rw [if_pos rfl, f0, add_zero]
    rw [if_neg hj1]
    by_cases hjn : j = n
    · rw [hjn, if_pos rfl, fn1, add_zero]
    rw [if_neg hjn]
    by_cases hjn1 : j = n + 1
    · rw [hjn1, if_pos rfl, fn1]
    rw [if_neg hjn1]

theorem foldUO_true_true (h : Hist) (n : ℕ) (hc : h.content.length = n + 2) :
    foldUO true true h =
      ⟨foldArr n true true h.content, foldArr n true true h.variance⟩ := by
  unfold foldUO
  rw [if_neg (by simp)]
  have : h.content.length - 2 = n := by omega
  rw [this]

/-- C2 (amended): folding underflow and overflow on a merged histogram with
n bins for n at least 2 adds the underflow slot into bin 1 and the overflow
slot into bin n, for contents and variances alike, zeroes both slots, and a
second application of the folding leaves the histogram unchanged. The
original claim also covers n = 1, where the code instead overwrites the
saved underflow with the overflow in the single shared edge bin, see the
counterexample. -/
theorem fold_underflow_overflow_spec (h : Hist) (n : ℕ) (hn : 2 ≤ n)
    (hc : h.content.length = n + 2) (hv : h.variance.length = n + 2) :
    (foldUO true true h).content.getD 1 0 = h.content.getD 1 0 + h.content.getD 0 0 ∧
    (foldUO true true h).variance.getD 1 0 = h.variance.getD 1 0 + h.variance.getD 0 0 ∧
    (foldUO true true h).content.getD n 0 = h.content.getD n 0 + h.content.getD (n + 1) 0 ∧
    (foldUO true true h).variance.getD n 0 = h.variance.getD n 0 + h.variance.getD (n + 1) 0 ∧
    (foldUO true true h).content.getD 0 0 = 0 ∧
    (foldUO true true h).variance.getD 0 0 = 0 ∧
    (foldUO true true h).content.getD (n + 1) 0 = 0 ∧
    (foldUO true true h).variance.getD (n + 1) 0 = 0 ∧
    foldUO true true (foldUO true true h) = foldUO true true h := by
  rw [foldUO_true_true h n hc]
  have e1c := foldArr_getD n h.content hn hc 1
  have e1v := foldArr_getD n h.variance hn hv 1
  have enc := foldArr_getD n h.content hn hc n
  have env := foldArr_getD n h.variance hn hv n
  have e0c := foldArr_getD n h.content hn hc 0
  have e0v := foldArr_getD n h.variance hn hv 0
  have en1c := foldArr_getD n h.content hn hc (n + 1)
  have en1v := foldArr_getD n h.variance hn hv (n + 1)
  rw [if_neg (by omega : ¬(1 = 0)), if_pos rfl] at e1c e1v
  rw [if_neg (by omega : ¬(n = 0)), if_neg (by omega : ¬(n = 1)), if_pos rfl] at enc env
  rw [if_pos rfl] at e0c e0v
  rw [if_neg (by omega : ¬(n + 1 = 0)), if_neg (by omega : ¬(n + 1 = 1)),
    if_neg (by omega : ¬(n + 1 = n)), if_pos rfl] at en1c en1v
  refine ⟨e1c, e1v, enc, env, e0c, e0v, en1c, en1v, ?_⟩
  have hc1 : (Hist.mk (foldArr n true true h.content)
      (foldArr n true true h.variance)).content.length = n + 2 := by
    dsimp; rw [foldArr_length, hc]
  rw [foldUO_true_true _ n hc1]
  dsimp
  rw [foldArr_idem n h.content hn hc, foldArr_idem n h.variance hn hv]

/-- Witness for fold_underflow_overflow_spec at a concrete histogram with
two bins. -/
theorem fold_underflow_overflow_witness :
    ((2 : ℕ) ≤ 2 ∧
      (Hist.mk [10, 1, 2, 100] [7, 3, 4, 9]).content.length = 2 + 2 ∧
      (Hist.mk [10, 1, 2, 100] [7, 3, 4, 9]).variance.length = 2 + 2) ∧
    ((foldUO true true ⟨[10, 1, 2, 100], [7, 3, 4, 9]⟩).content.getD 1 0 =
        (Hist.mk [10, 1, 2, 100] [7, 3, 4, 9]).content.getD 1 0 +
        (Hist.mk [10, 1, 2, 100] [7, 3, 4, 9]).content.getD 0 0 ∧
      (foldUO true true ⟨[10, 1, 2, 100], [7, 3, 4, 9]⟩).variance.getD 1 0 =
        (Hist.mk [10, 1, 2, 100] [7, 3, 4, 9]).variance.getD 1 0 +
        (Hist.mk [10, 1, 2, 100] [7, 3, 4, 9]).variance.getD 0 0 ∧
      (foldUO true true ⟨[10, 1, 2, 100], [7, 3, 4, 9]⟩).content.getD 2 0 =
        (Hist.mk [10, 1, 2, 100] [7, 3, 4, 9]).content.getD 2 0 +
        (Hist.mk [10, 1, 2, 100] [7, 3, 4, 9]).content.getD (2 + 1) 0 ∧
      (foldUO true true ⟨[10, 1, 2, 100], [7, 3, 4, 9]⟩).variance.getD 2 0 =
        (Hist.mk [10, 1, 2, 100] [7, 3, 4, 9]).variance.getD 2 0 +
        (Hist.mk [10, 1, 2, 100] [7, 3, 4, 9]).variance.getD (2 + 1) 0 ∧
      (foldUO true true ⟨[10, 1, 2, 100], [7, 3, 4, 9]⟩).content.getD 0 0 = 0 ∧
      (foldUO true true ⟨[10, 1, 2, 100], [7, 3, 4, 9]⟩).variance.getD 0 0 = 0 ∧
      (foldUO true true ⟨[10, 1, 2, 100], [7, 3, 4, 9]⟩).content.getD (2 + 1) 0 = 0 ∧
      (foldUO true true ⟨[10, 1, 2, 100], [7, 3, 4, 9]⟩).variance.getD (2 + 1) 0 = 0 ∧
      foldUO true true (foldUO true true ⟨[10, 1, 2, 100], [7, 3, 4, 9]⟩) =
        foldUO true true ⟨[10, 1, 2, 100], [7, 3, 4, 9]⟩) :=
  ⟨⟨by decide, by decide, by decide⟩,
    fold_underflow_overflow_spec ⟨[10, 1, 2, 100], [7, 3, 4, 9]⟩ 2 (by decide)
      (by decide) (by decide)⟩

/-- C2 counterexample: for a merged histogram with a single bin and both
flags enabled, the overflow write into bin GetNbinsX = 1 of the temp
histogram overwrites the underflow value saved there, so the folded bin 1
holds pre-fold bin 1 plus overflow, not pre-fold bin 1 plus underflow as
the claim requires of bin 1. Input: underflow slot 5, bin content 1,
overflow slot 7; the folded bin 1 is 8, but 1 + 5 = 6. -/
theorem fold_underflow_overflow_counterexample :
    (foldUO true true ⟨[5, 1, 7], [0, 0, 0]⟩).content.getD 1 0 = 8 ∧
    ¬ ((foldUO true true ⟨[5, 1, 7], [0, 0, 0]⟩).content.getD 1 0 =
        (Hist.mk [5, 1, 7] [0, 0, 0]).content.getD 1 0 +
        (Hist.mk [5, 1, 7] [0, 0, 0]).content.getD 0 0) := by
  constructor
  · norm_num [foldUO, foldArr]
  · norm_num [foldUO, foldArr]

/- Panel divide (claim C3). -/

theorem hDivide_content_getD (a b : Hist) (i : ℕ)
    (hia : i < a.content.length) (hib : i < b.content.length)
    (hva : a.variance.length = a.content.length)
    (hvb : b.variance.length = b.content.length) :
    (hDivide a b).content.getD i 0 =
      if b.content.getD i 0 = 0 then 0
      else a.content.getD i 0 / b.content.getD i 0 := by
  unfold hDivide
  have hza : (a.content.zip a.variance).length = a.content.length := by
    rw [List.length_zip, hva, min_self]
  have hzb : (b.content.zip b.variance).length = b.content.length := by
    rw [List.length_zip, hvb, min_self]
  have hi : i < (List.zipWith divideBin (a.content.zip a.variance)
      (b.content.zip b.variance)).length := by
    rw [List.length_zipWith, hza, hzb]; exact lt_min hia hib
  have him : i < ((List.zipWith divideBin (a.content.zip a.variance)
      (b.content.zip b.variance)).map Prod.fst).length := by
    simpa using hi
  rw [List.getD_eq_getElem _ _ him, List.getElem_map, List.getElem_zipWith,
    List.getElem_zip, List.getElem_zip, List.getD_eq_getElem _ _ hib,
    List.getD_eq_getElem _ _ hia]
  unfold divideBin
  by_cases hz : b.content[i] = 0
  · simp [hz]
  · simp [hz]

/-- C3: PanelElement divide produces per-bin content a/b, and 0 in every
bin where the denominator content is 0; for identical numerator and
denominator the result content is 1 in every bin of positive content. -/
theorem divide_spec (a b : Hist) (i : ℕ)
    (hia : i < a.content.length) (hib : i < b.content.length)
    (hva : a.variance.length = a.content.length)
    (hvb : b.variance.length = b.content.length) :
    ((hDivide a b).content.getD i 0 =
      if b.content.getD i 0 = 0 then 0
      else a.content.getD i 0 / b.content.getD i 0) ∧
    (0 < a.content.getD i 0 → (hDivide a a).content.getD i 0 = 1) := by
  refine ⟨hDivide_content_getD a b i hia hib hva hvb, fun hpos => ?_⟩
  rw [hDivide_content_getD a a i hia hia hva hva, if_neg (ne_of_gt hpos),
    div_self (ne_of_gt hpos)]

/-- Witness for divide_spec: bin 0 of a concrete pair, denominator content
2 in bin 0, and the self-divide case. -/
theorem divide_spec_witness :
    ((0 : ℕ) < (Hist.mk [2, 3] [1, 1]).content.length ∧
      (0 : ℕ) < (Hist.mk [2, 0] [1, 1]).content.length ∧
      (Hist.mk [2, 3] [1, 1]).variance.length = (Hist.mk [2, 3] [1, 1]).content.length ∧
      (Hist.mk [2, 0] [1, 1]).variance.length = (Hist.mk [2, 0] [1, 1]).content.length) ∧
    (((hDivide ⟨[2, 3], [1, 1]⟩ ⟨[2, 0], [1, 1]⟩).content.getD 0 0 =
        if (Hist.mk [2, 0] [1, 1]).content.getD 0 0 = 0 then 0
        else (Hist.mk [2, 3] [1, 1]).content.getD 0 0 /
          (Hist.mk [2, 0] [1, 1]).content.getD 0 0) ∧
      (0 < (Hist.mk [2, 3] [1, 1]).content.getD 0 0 →
        (hDivide ⟨[2, 3], [1, 1]⟩ ⟨[2, 3], [1, 1]⟩).content.getD 0 0 = 1)) :=
  ⟨⟨by decide, by decide, by decide, by decide⟩,
    divide_spec ⟨[2, 3], [1, 1]⟩ ⟨[2, 0], [1, 1]⟩ 0 (by decide) (by decide)
      (by decide) (by decide)⟩


/- Panel error band (claim C4). -/

theorem band_foldl_spec (a : Hist) :
    ∀ (l : List ℕ) (h : Hist), l.Nodup →
      h.content.length = a.content.length →
      h.variance.length = a.variance.length →
      (∀ x ∈ l, x < a.content.length ∧ x < a.variance.length) →
      (l.foldl (bandStep a) h).content.length = a.content.length ∧
      (l.foldl (bandStep a) h).variance.length = a.variance.length ∧
      ∀ j, ((l.foldl (bandStep a) h).content.getD j 0 =
          if j ∈ l ∧ 0 < a.content.getD j 0 then 1 else h.content.getD j 0) ∧
        ((l.foldl (bandStep a) h).variance.getD j 0 =
          if j ∈ l ∧ 0 < a.content.getD j 0 then
            a.variance.getD j 0 / a.content.getD j 0 ^ 2
          else h.variance.getD j 0) := by
  intro l
  induction l with
  | nil =>
    intro h _ hcl hvl _
    exact ⟨hcl, hvl, fun j => ⟨by simp, by simp⟩⟩
  | cons i t ih =>
    intro h hnd hcl hvl hbound
    obtain ⟨hit, htnd⟩ := List.nodup_cons.mp hnd
    have hib := hbound i (List.mem_cons_self i t)
    have hbt : ∀ x ∈ t, x < a.content.length ∧ x < a.variance.length :=
      fun x hx => hbound x (List.mem_cons_of_mem i hx)
    have hstep_c : (bandStep a h i).content.length = a.content.length := by
      unfold bandStep; split_ifs <;> simp [hcl]
    have hstep_v : (bandStep a h i).variance.length = a.variance.length := by
      unfold bandStep; split_ifs <;> simp [hvl]
    obtain ⟨L1, L2, HJ⟩ := ih (bandStep a h i) htnd hstep_c hstep_v hbt
    have step_cj : ∀ j, (bandStep a h i).content.getD j 0 =
        if j = i ∧ 0 < a.content.getD i 0 then 1 else h.content.getD j 0 := by
      intro j
      unfold bandStep
      by_cases hp : 0 < a.content.getD i 0
      · rw [if_pos hp]
        dsimp only
        rw [getD_set]
        by_cases hj : j = i
        · subst hj
          rw [if_pos ⟨rfl, by rw [hcl]; exact hib.1⟩, if_pos ⟨rfl, hp⟩]
        · rw [if_neg (fun hc => hj hc.1.symm), if_neg (fun hc => hj hc.1)]
      · rw [if_neg hp, if_neg (show ¬(j = i ∧ 0 < a.content.getD i 0) from
          fun hc => hp hc.2)]
    have step_vj : ∀ j, (bandStep a h i).variance.getD j 0 =
        if j = i ∧ 0 < a.content.getD i 0 then
          a.variance.getD i 0 / a.content.getD i 0 ^ 2
        else h.variance.getD j 0 := by
      intro j
      unfold bandStep
      by_cases hp : 0 < a.content.getD i 0
      · rw [if_pos hp]
        dsimp only
        rw [getD_set]
        by_cases hj : j = i
        · subst hj
          rw [if_pos ⟨rfl, by rw [hvl]; exact hib.2⟩, if_pos ⟨rfl, hp⟩]
        · rw [if_neg (fun hc => hj hc.1.symm), if_neg (fun hc => hj hc.1)]
      · rw [if_neg hp, if_neg (show ¬(j = i ∧ 0 < a.content.getD i 0) from
          fun hc => hp hc.2)]
    refine ⟨L1, L2, fun j => ?_⟩
    obtain ⟨Hc, Hv⟩ := HJ j
    constructor
    · rw [List.foldl_cons, Hc, step_cj j]
      by_cases hjt : j ∈ t
      · by_cases hpj : 0 < a.content.getD j 0
        · rw [if_pos ⟨hjt, hpj⟩, if_pos ⟨List.mem_cons_of_mem i hjt, hpj⟩]
        · rw [if_neg (show ¬(j ∈ t ∧ 0 < a.content.getD j 0) from fun hc => hpj hc.2),
            if_neg (show ¬(j = i ∧ 0 < a.content.getD i 0) from
              fun hc => hit (hc.1 ▸ hjt)),
            if_neg (show ¬(j ∈ i :: t ∧ 0 < a.content.getD j 0) from
              fun hc => hpj hc.2)]
      · by_cases hji : j = i
        · by_cases hpj : 0 < a.content.getD j 0
          · rw [if_neg (show ¬(j ∈ t ∧ 0 < a.content.getD j 0) from fun hc => hjt hc.1),
              if_pos (⟨hji, hji ▸ hpj⟩ : j = i ∧ 0 < a.content.getD i 0),
              if_pos (⟨List.mem_cons.mpr (Or.inl hji), hpj⟩ :
                j ∈ i :: t ∧ 0 < a.content.getD j 0)]
          · rw [if_neg (show ¬(j ∈ t ∧ 0 < a.content.getD j 0) from fun hc => hjt hc.1),
              if_neg (show ¬(j = i ∧ 0 < a.content.getD i 0) from
                fun hc => hpj (hji.symm ▸ hc.2)),
              if_neg (show ¬(j ∈ i :: t ∧ 0 < a.content.getD j 0) from
                fun hc => hpj hc.2)]
        · rw [if_neg (show ¬(j ∈ t ∧ 0 < a.content.getD j 0) from fun hc => hjt hc.1),
            if_neg (show ¬(j = i ∧ 0 < a.content.getD i 0) from fun hc => hji hc.1),
            if_neg (show ¬(j ∈ i :: t ∧ 0 < a.content.getD j 0) from
              fun hc => (List.mem_cons.mp hc.1).elim hji hjt)]
    · rw [List.foldl_cons, Hv, step_vj j]
      by_cases hjt : j ∈ t
      · by_cases hpj : 0 < a.content.getD j 0
        · rw [if_pos ⟨hjt, hpj⟩, if_pos ⟨List.mem_cons_of_mem i hjt, hpj⟩]
        · rw [if_neg (show ¬(j ∈ t ∧ 0 < a.content.getD j 0) from fun hc => hpj hc.2),
            if_neg (show ¬(j = i ∧ 0 < a.content.getD i 0) from
              fun hc => hit (hc.1 ▸ hjt)),
            if_neg (show ¬(j ∈ i :: t ∧ 0 < a.content.getD j 0) from
              fun hc => hpj hc.2)]
      · by_cases hji : j = i
        · by_cases hpj : 0 < a.content.getD j 0
          · rw [if_neg (show ¬(j ∈ t ∧ 0 < a.content.getD j 0) from fun hc => hjt hc.1),
              if_pos (⟨hji, hji ▸ hpj⟩ : j = i ∧ 0 < a.content.getD i 0),
              if_pos (⟨List.mem_cons.mpr (Or.inl hji), hpj⟩ :
                j ∈ i :: t ∧ 0 < a.content.getD j 0)]
            rw [hji]
          · rw [if_neg (show ¬(j ∈ t ∧ 0 < a.content.getD j 0) from fun hc => hjt hc.1),
              if_neg (show ¬(j = i ∧ 0 < a.content.getD i 0) from
                fun hc => hpj (hji.symm ▸ hc.2)),
              if_neg (show ¬(j ∈ i :: t ∧ 0 < a.content.getD j 0) from
                fun hc => hpj hc.2)]
        · rw [if_neg (show ¬(j ∈ t ∧ 0 < a.content.getD j 0) from fun hc => hjt hc.1),
            if_neg (show ¬(j = i ∧ 0 < a.content.getD i 0) from fun hc => hji hc.1),
            if_neg (show ¬(j ∈ i :: t ∧ 0 < a.content.getD j 0) from
              fun hc => (List.mem_cons.mp hc.1).elim hji hjt)]

/-- C4: PanelElement error band sets every bin 1..n of positive content to
content exactly 1 with its error set to sqrt(variance)/content of the
input, recorded on variances as variance/content squared, and bins of
content 0 keep content 0. -/
theorem error_band_spec (a : Hist) (n : ℕ)
    (hc : a.content.length = n + 2) (hv : a.variance.length = n + 2)
    (i : ℕ) (h1 : 1 ≤ i) (h2 : i ≤ n) :
    (0 < a.content.getD i 0 →
      (error_band a).content.getD i 0 = 1 ∧
      (error_band a).variance.getD i 0 =
        a.variance.getD i 0 / a.content.getD i 0 ^ 2) ∧
    (a.content.getD i 0 = 0 → (error_band a).content.getD i 0 = 0) := by
  unfold error_band
  have hrange : a.content.length - 2 = n := by omega
  rw [hrange]
  obtain ⟨_, _, HJ⟩ := band_foldl_spec a (List.range' 1 n) a
    (List.nodup_range' 1 n) rfl rfl
    (fun x hx => by
      rw [List.mem_range'_1] at hx
      refine ⟨?_, ?_⟩
      · rw [hc]; omega
      · rw [hv]; omega)
  obtain ⟨Hc, Hv⟩ := HJ i
  have hmem : i ∈ List.range' 1 n := List.mem_range'_1.mpr ⟨h1, by omega⟩
  constructor
  · intro hpos
    exact ⟨by rw [Hc, if_pos ⟨hmem, hpos⟩], by rw [Hv, if_pos ⟨hmem, hpos⟩]⟩
  · intro hzero
    rw [Hc, if_neg (show ¬(i ∈ List.range' 1 n ∧ 0 < a.content.getD i 0) from
      fun hcond => by rw [hzero] at hcond; exact lt_irrefl 0 hcond.2)]
    exact hzero

/-- Witness for error_band_spec at bin 1 of a concrete histogram with two
bins, content 4 and variance 9 in bin 1. -/
theorem error_band_spec_witness :
    ((Hist.mk [0, 4, 0, 5] [0, 9, 0, 1]).content.length = 2 + 2 ∧
      (Hist.mk [0, 4, 0, 5] [0, 9, 0, 1]).variance.length = 2 + 2 ∧
      (1 : ℕ) ≤ 1 ∧ (1 : ℕ) ≤ 2) ∧
    ((0 < (Hist.mk [0, 4, 0, 5] [0, 9, 0, 1]).content.getD 1 0 →
        (error_band ⟨[0, 4, 0, 5], [0, 9, 0, 1]⟩).content.getD 1 0 = 1 ∧
        (error_band ⟨[0, 4, 0, 5], [0, 9, 0, 1]⟩).variance.getD 1 0 =
          (Hist.mk [0, 4, 0, 5] [0, 9, 0, 1]).variance.getD 1 0 /
            (Hist.mk [0, 4, 0, 5] [0, 9, 0, 1]).content.getD 1 0 ^ 2) ∧
      ((Hist.mk [0, 4, 0, 5] [0, 9, 0, 1]).content.getD 1 0 = 0 →
        (error_band ⟨[0, 4, 0, 5], [0, 9, 0, 1]⟩).content.getD 1 0 = 0)) :=
  ⟨⟨by decide, by decide, by decide, by decide⟩,
    error_band_spec ⟨[0, 4, 0, 5], [0, 9, 0, 1]⟩ 2 (by decide) (by decide) 1
      (by decide) (by decide)⟩

/- Compositor partition and ordering (claim C7). -/

theorem separate_foldl (merged : List (String × Hist)) (ups : List ProcessTemplate)
    (acc : List (ProcessTemplate × Hist) × List (ProcessTemplate × Hist)) :
    ups.foldl (separateStep merged) acc =
      (acc.1 ++ (matchedPairs ups merged).filter
        (fun q => decide (q.1.style = Style.stacked)),
       acc.2 ++ (matchedPairs ups merged).filter
        (fun q => decide (¬ q.1.style = Style.stacked))) := by
  induction ups generalizing acc with
  | nil => simp [matchedPairs]
  | cons t ts ih =>
    rw [List.foldl_cons, ih]
    rcases halg : alGet merged t.name with _ | h
    · simp [separateStep, halg, matchedPairs, List.filterMap_cons]
    · by_cases hsty : t.style = Style.stacked
      · simp [separateStep, halg, hsty, matchedPairs, List.filterMap_cons,
          List.filter_cons, List.append_assoc]
      · simp [separateStep, halg, hsty, matchedPairs, List.filterMap_cons,
          List.filter_cons, List.append_assoc]

/-- C7: the Compositor partition puts a matched (template, histogram) pair
in the stack group exactly when the template style is stacked and in the
overlay group otherwise, and each group is sorted ascending by the
histogram integral, the sum of the contents of bins 1..n. -/
theorem separate_hists_spec (ups : List ProcessTemplate)
    (merged : List (String × Hist)) :
    (∀ t h, ((t, h) ∈ (separate_hists ups merged).1 ↔
        t ∈ ups ∧ alGet merged t.name = some h ∧ t.style = Style.stacked) ∧
      ((t, h) ∈ (separate_hists ups merged).2 ↔
        t ∈ ups ∧ alGet merged t.name = some h ∧ ¬ t.style = Style.stacked)) ∧
    List.Sorted stackLE (separate_hists ups merged).1 ∧
    List.Sorted stackLE (separate_hists ups merged).2 := by
  have hsep : separate_hists ups merged =
      (List.insertionSort stackLE ((matchedPairs ups merged).filter
        (fun q => decide (q.1.style = Style.stacked))),
       List.insertionSort stackLE ((matchedPairs ups merged).filter
        (fun q => decide (¬ q.1.style = Style.stacked)))) := by
    show (List.insertionSort stackLE (ups.foldl (separateStep merged) ([], [])).1,
        List.insertionSort stackLE (ups.foldl (separateStep merged) ([], [])).2) = _
    rw [separate_foldl]
    simp
  rw [hsep]
  refine ⟨fun t h => ⟨?_, ?_⟩, List.sorted_insertionSort _ _, List.sorted_insertionSort _ _⟩
  · rw [(List.perm_insertionSort stackLE _).mem_iff, List.mem_filter]
    unfold matchedPairs
    rw [List.mem_filterMap]
    constructor
    · rintro ⟨⟨t1, ht1, hf⟩, hsty⟩
      rw [Option.map_eq_some'] at hf
      obtain ⟨hh, hal, heq⟩ := hf
      obtain ⟨he1, he2⟩ := Prod.mk.injEq _ _ _ _ ▸ heq
      subst he1
      subst he2
      exact ⟨ht1, hal, by simpa using hsty⟩
    · rintro ⟨hmem, halg, hsty⟩
      refine ⟨⟨t, hmem, ?_⟩, ?_⟩
      · rw [halg]; rfl
      · simpa using hsty
  · rw [(List.perm_insertionSort stackLE _).mem_iff, List.mem_filter]
    unfold matchedPairs
    rw [List.mem_filterMap]
    constructor
    · rintro ⟨⟨t1, ht1, hf⟩, hsty⟩
      rw [Option.map_eq_some'] at hf
      obtain ⟨hh, hal, heq⟩ := hf
      obtain ⟨he1, he2⟩ := Prod.mk.injEq _ _ _ _ ▸ heq
      subst he1
      subst he2
      exact ⟨ht1, hal, by simpa using hsty⟩
    · rintro ⟨hmem, halg, hsty⟩
      refine ⟨⟨t, hmem, ?_⟩, ?_⟩
      · rw [halg]; rfl
      · simpa using hsty

/- Duplicate process registration (claim C8). -/

theorem findTemplate_append (l1 l2 : List ProcessTemplate) (n : String) :
    findTemplate (l1 ++ l2) n = (findTemplate l1 n).or (findTemplate l2 n) := by
  induction l1 with
  | nil => simp [findTemplate]
  | cons t ts ih =>
    by_cases h : t.name = n <;> simp [findTemplate, h, ih]

/-- C8: registering two processes that share a name and differ only in
color emits no warning on the first call and exactly one warning on the
second, the stored template keeps every field of the first process, and
both processes are appended so the run continues. -/
theorem add_process_first_wins (s : PlotterState) (p1 p2 : Process)
    (habs : findTemplate s.unique_processes p1.name = none)
    (hname : p2.name = p1.name) (hcolor : p2.color ≠ p1.color)
    (hstyle : p2.style = p1.style) (herr : p2.error_bars = p1.error_bars)
    (hlabel : p2.label = p1.label) :
    (add_process s p1).2 = [] ∧
    (add_process (add_process s p1).1 p2).2.length = 1 ∧
    findTemplate (add_process (add_process s p1).1 p2).1.unique_processes p1.name =
      some (templateOf p1) ∧
    (add_process (add_process s p1).1 p2).1.processes = s.processes ++ [p1, p2] := by
  have h1 : add_process s p1 =
      ({ s with unique_processes := s.unique_processes ++ [templateOf p1],
                processes := s.processes ++ [p1] }, []) := by
    unfold add_process
    rw [habs]
  have hfind1 : findTemplate (s.unique_processes ++ [templateOf p1]) p1.name =
      some (templateOf p1) := by
    rw [findTemplate_append, habs]
    simp [findTemplate, templateOf]
  have h2 : add_process (add_process s p1).1 p2 =
      ({ s with unique_processes := s.unique_processes ++ [templateOf p1],
                processes := (s.processes ++ [p1]) ++ [p2] },
       ["Process already exists with different color. Skipping color update."]) := by
    rw [h1]
    unfold add_process
    dsimp only
    rw [hname, hfind1]
    dsimp only [templateOf]
    rw [if_pos hcolor, if_neg (show ¬(p2.style ≠ p1.style) from fun hn => hn hstyle),
      if_neg (show ¬(p2.error_bars ≠ p1.error_bars) from fun hn => hn herr),
      if_neg (show ¬(p2.label ≠ p1.label) from fun hn => hn hlabel)]
    simp
  refine ⟨by rw [h1], by rw [h2]; rfl, ?_, ?_⟩
  · rw [h2]
    dsimp only
    exact hfind1
  · rw [h2]
    dsimp only
    simp [List.append_assoc]

/-- Witness for add_process_first_wins: two processes named mc with colors
2 and 3 registered on a fresh plotter. -/
theorem add_process_first_wins_witness :
    ((findTemplate initState.unique_processes "mc" = none ∧
      ("mc" : String) = "mc" ∧ (3 : Int) ≠ 2 ∧
      Style.stacked = Style.stacked ∧ (true = true) ∧ ("mc" : String) = "mc") ∧
    ((add_process initState ⟨"mc", "a.root", "t", 2, none, Style.stacked, true, "mc"⟩).2 = [] ∧
      (add_process (add_process initState
          ⟨"mc", "a.root", "t", 2, none, Style.stacked, true, "mc"⟩).1
        ⟨"mc", "b.root", "t", 3, none, Style.stacked, true, "mc"⟩).2.length = 1 ∧
      findTemplate (add_process (add_process initState
          ⟨"mc", "a.root", "t", 2, none, Style.stacked, true, "mc"⟩).1
        ⟨"mc", "b.root", "t", 3, none, Style.stacked, true, "mc"⟩).1.unique_processes
        "mc" = some (templateOf ⟨"mc", "a.root", "t", 2, none, Style.stacked, true, "mc"⟩) ∧
      (add_process (add_process initState
          ⟨"mc", "a.root", "t", 2, none, Style.stacked, true, "mc"⟩).1
        ⟨"mc", "b.root", "t", 3, none, Style.stacked, true, "mc"⟩).1.processes =
        initState.processes ++
          [⟨"mc", "a.root", "t", 2, none, Style.stacked, true, "mc"⟩,
           ⟨"mc", "b.root", "t", 3, none, Style.stacked, true, "mc"⟩])) :=
  ⟨⟨by decide, rfl, by decide, rfl, rfl, rfl⟩,
    add_process_first_wins initState
      ⟨"mc", "a.root", "t", 2, none, Style.stacked, true, "mc"⟩
      ⟨"mc", "b.root", "t", 3, none, Style.stacked, true, "mc"⟩
      (by decide) rfl (by decide) rfl rfl rfl⟩

/- Stack sentinel with an empty stack group (claim C5). -/

theorem retrieve_foldl_error (ups : List ProcessTemplate)
    (merged : List (String × Hist)) (st : Option Hist) (vs : List String)
    (e : String) :
    vs.foldl (retrieveStep st ups merged) (Except.error e) = Except.error e := by
  induction vs with
  | nil => rfl
  | cons v t ih => exact ih

/-- C5 (code bug): with an empty stack group, _draw_stack returns a None
stack total, and retrieving the inputs of a panel element whose declared
values contain the literal stack sentinel then calls Clone on None, so
_make_plots raises AttributeError instead of logging an error and skipping
the sub-plot as the claim requires. -/
theorem stack_sentinel_raises (ups : List ProcessTemplate)
    (merged : List (String × Hist)) (vs : List String) :
    draw_stack_total [] = none ∧
    retrieve_value_hists ups merged none ("stack" :: vs) =
      Except.error attrErrorMsg := by
  refine ⟨rfl, ?_⟩
  unfold retrieve_value_hists
  rw [List.foldl_cons]
  exact retrieve_foldl_error ups merged none vs attrErrorMsg

/- Missing merge consistency check (claim C6). -/

/-- C6 (code bug): the merge function emits no log message for any input:
the announced consistency check is only a TODO comment, so a merged region
whose process set (here only mc) differs from the registered process set
(mc and data) is never compared against it nor reported. -/
theorem merge_consistency_unchecked :
    (∀ frags : List Frag, (merge_hists_checked frags).2 = []) ∧
    (mergeHists [⟨"SR", "mc", ⟨[1], [1]⟩⟩]).map Prod.fst = ["SR"] ∧
    (alGet (mergeHists [⟨"SR", "mc", ⟨[1], [1]⟩⟩]) "SR").map
      (fun inner => inner.map Prod.fst) = some ["mc"] ∧
    (["mc"] : List String) ≠ ["mc", "data"] :=
  ⟨fun _ => rfl, rfl, rfl, by decide⟩

/- Panel reference line padding (claim C9). -/

/-- C9 (amended): when the reference line heights and colors differ in
length, Panel emits exactly one warning and stores the heights unchanged
while the colors are padded with kBlack or truncated to the length of the
heights list, so both stored lists have the heights list length. -/
theorem panel_padding_spec (els : List PanelElement) (yl : String)
    (ymin ymax : ℚ) (hs : List ℚ) (cs : List Int)
    (hne : hs.length ≠ cs.length) :
    (Panel.init els yl ymin ymax hs cs).2.length = 1 ∧
    (Panel.init els yl ymin ymax hs cs).1.reference_line_heights = hs ∧
    (Panel.init els yl ymin ymax hs cs).1.reference_line_colors.length = hs.length ∧
    (cs.length < hs.length →
      (Panel.init els yl ymin ymax hs cs).1.reference_line_colors =
        cs ++ List.replicate (hs.length - cs.length) kBlack) ∧
    (hs.length < cs.length →
      (Panel.init els yl ymin ymax hs cs).1.reference_line_colors =
        cs.take hs.length) := by
  unfold Panel.init
  rcases lt_trichotomy cs.length hs.length with hlt | heq | hgt
  · rw [if_pos hlt]
    refine ⟨rfl, rfl, ?_, fun _ => rfl, fun hgt => absurd hgt (by omega)⟩
    dsimp only
    rw [List.length_append, List.length_replicate]
    omega
  · exact absurd heq.symm hne
  · rw [if_neg (by omega), if_pos hgt]
    refine ⟨rfl, rfl, ?_, fun hlt => absurd hlt (by omega), fun _ => rfl⟩
    dsimp only
    rw [List.length_take]
    omega

/-- Witness for panel_padding_spec: two heights against no colors. -/
theorem panel_padding_spec_witness :
    (([(1 : ℚ), 2] : List ℚ).length ≠ ([] : List Int).length) ∧
    ((Panel.init [] "Ratio" (1/2) (3/2) [1, 2] []).2.length = 1 ∧
      (Panel.init [] "Ratio" (1/2) (3/2) [1, 2] []).1.reference_line_heights =
        [(1 : ℚ), 2] ∧
      (Panel.init [] "Ratio" (1/2) (3/2) [1, 2] []).1.reference_line_colors.length =
        ([(1 : ℚ), 2] : List ℚ).length ∧
      (([] : List Int).length < ([(1 : ℚ), 2] : List ℚ).length →
        (Panel.init [] "Ratio" (1/2) (3/2) [1, 2] []).1.reference_line_colors =
          ([] : List Int) ++ List.replicate (([(1 : ℚ), 2] : List ℚ).length -
            ([] : List Int).length) kBlack) ∧
      (([(1 : ℚ), 2] : List ℚ).length < ([] : List Int).length →
        (Panel.init [] "Ratio" (1/2) (3/2) [1, 2] []).1.reference_line_colors =
          ([] : List Int).take ([(1 : ℚ), 2] : List ℚ).length)) :=
  ⟨by decide, panel_padding_spec [] "Ratio" (1/2) (3/2) [1, 2] [] (by decide)⟩

/-- C9 counterexample: with heights of length 2 and colors of length 0, the
stored colors are padded with kBlack up to length 2, the length of the
heights list, not truncated to the length 0 of the shorter input list as
the claim states. -/
theorem panel_padding_counterexample :
    (Panel.init [] "Ratio" (1/2) (3/2) [1, 2] []).1.reference_line_heights.length = 2 ∧
    (Panel.init [] "Ratio" (1/2) (3/2) [1, 2] []).1.reference_line_colors.length = 2 ∧
    ¬ ((Panel.init [] "Ratio" (1/2) (3/2) [1, 2] []).1.reference_line_colors.length =
        min ([(1 : ℚ), 2] : List ℚ).length ([] : List Int).length) :=
  ⟨rfl, rfl, by decide⟩

/- Registry last-registration-wins invariants (claim C10). -/

theorem nodup_upsert {α : Type} (nm : α → String) (l : List α) (a : α)
    (h : (l.map nm).Nodup) :
    (((l.filter (fun x => nm x != nm a)) ++ [a]).map nm).Nodup := by
  rw [List.map_append, List.nodup_append]
  refine ⟨((List.filter_sublist l).map nm).nodup h, List.nodup_singleton _, ?_⟩
  intro x hx hy
  simp only [List.map_cons, List.map_nil, List.mem_singleton] at hy
  subst hy
  obtain ⟨y, hyf, hynm⟩ := List.mem_map.mp hx
  obtain ⟨hyl, hcond⟩ := List.mem_filter.mp hyf
  exact bne_iff_ne.mp hcond hynm

theorem nodup_append_new {α : Type} (nm : α → String) (l : List α) (a : α)
    (h : (l.map nm).Nodup) (hnotin : nm a ∉ l.map nm) :
    ((l ++ [a]).map nm).Nodup := by
  rw [List.map_append, List.nodup_append]
  refine ⟨h, List.nodup_singleton _, fun x hx hy => ?_⟩
  simp only [List.map_cons, List.map_nil, List.mem_singleton] at hy
  subst hy
  exact hnotin hx

theorem add_region_upsert (s : PlotterState) (r : Region) :
    (add_region s r).1.regions = s.regions.filter (fun x => x.name != r.name) ++ [r] := by
  unfold add_region
  by_cases hmem : r.name ∈ s.regions.map Region.name
  · rw [if_pos hmem]
  · rw [if_neg hmem]
    dsimp only
    have hself : s.regions.filter (fun x => x.name != r.name) = s.regions :=
      List.filter_eq_self.mpr (fun x hx =>
        bne_iff_ne.mpr (fun he => hmem (he ▸ List.mem_map_of_mem Region.name hx)))
    rw [hself]

theorem add_histogram_upsert (s : PlotterState) (h : Histogram) :
    (add_histogram s h).1.histograms =
      s.histograms.filter (fun x => x.name != h.name) ++ [h] := by
  unfold add_histogram
  by_cases hmem : h.name ∈ s.histograms.map Histogram.name
  · rw [if_pos hmem]
  · rw [if_neg hmem]
    dsimp only
    have hself : s.histograms.filter (fun x => x.name != h.name) = s.histograms :=
      List.filter_eq_self.mpr (fun x hx =>
        bne_iff_ne.mpr (fun he => hmem (he ▸ List.mem_map_of_mem Histogram.name hx)))
    rw [hself]

theorem clearPanel2D_name (h : Histogram2D) : (clearPanel2D h).name = h.name := by
  unfold clearPanel2D
  split_ifs <;> rfl

theorem add_histogram2D_upsert (s : PlotterState) (h : Histogram2D) :
    (add_histogram2D s h).1.histograms2D =
      s.histograms2D.filter (fun x => x.name != (clearPanel2D h).name) ++
        [clearPanel2D h] := by
  unfold add_histogram2D
  dsimp only
  by_cases hmem : (clearPanel2D h).name ∈ s.histograms2D.map Histogram2D.name
  · rw [if_pos hmem]
  · rw [if_neg hmem]
    dsimp only
    have hself : s.histograms2D.filter (fun x => x.name != (clearPanel2D h).name) =
        s.histograms2D :=
      List.filter_eq_self.mpr (fun x hx =>
        bne_iff_ne.mpr (fun he => hmem (he ▸ List.mem_map_of_mem Histogram2D.name hx)))
    rw [hself]

theorem add_process_template_invariant (s : PlotterState) (p : Process) :
    (add_process s p).1.unique_processes =
      if (findTemplate s.unique_processes p.name).isSome then s.unique_processes
      else s.unique_processes ++ [templateOf p] := by
  rcases hf : findTemplate s.unique_processes p.name with _ | tpl
  · simp [add_process, hf]
  · simp [add_process, hf]

theorem add_region_other (s : PlotterState) (r : Region) :
    (add_region s r).1.histograms = s.histograms ∧
    (add_region s r).1.histograms2D = s.histograms2D := by
  unfold add_region
  split_ifs <;> exact ⟨rfl, rfl⟩

theorem add_histogram_other (s : PlotterState) (h : Histogram) :
    (add_histogram s h).1.regions = s.regions ∧
    (add_histogram s h).1.histograms2D = s.histograms2D := by
  unfold add_histogram
  split_ifs <;> exact ⟨rfl, rfl⟩

theorem add_histogram2D_other (s : PlotterState) (h : Histogram2D) :
    (add_histogram2D s h).1.regions = s.regions ∧
    (add_histogram2D s h).1.histograms = s.histograms := by
  unfold add_histogram2D
  dsimp only
  split_ifs <;> exact ⟨rfl, rfl⟩

theorem add_process_other (s : PlotterState) (p : Process) :
    (add_process s p).1.regions = s.regions ∧
    (add_process s p).1.histograms = s.histograms ∧
    (add_process s p).1.histograms2D = s.histograms2D := by
  rcases hf : findTemplate s.unique_processes p.name with _ | tpl <;>
    simp [add_process, hf]

theorem applyCmd_nodup (s : PlotterState) (c : PlotterCmd)
    (h1 : (s.regions.map Region.name).Nodup)
    (h2 : (s.histograms.map Histogram.name).Nodup)
    (h3 : (s.histograms2D.map Histogram2D.name).Nodup) :
    ((applyCmd s c).regions.map Region.name).Nodup ∧
    ((applyCmd s c).histograms.map Histogram.name).Nodup ∧
    ((applyCmd s c).histograms2D.map Histogram2D.name).Nodup := by
  cases c with
  | addRegion r =>
    refine ⟨?_, ?_, ?_⟩
    · show ((add_region s r).1.regions.map Region.name).Nodup
      rw [add_region_upsert]
      exact nodup_upsert Region.name s.regions r h1
    · show ((add_region s r).1.histograms.map Histogram.name).Nodup
      rw [(add_region_other s r).1]
      exact h2
    · show ((add_region s r).1.histograms2D.map Histogram2D.name).Nodup
      rw [(add_region_other s r).2]
      exact h3
  | addHistogram h =>
    refine ⟨?_, ?_, ?_⟩
    · show ((add_histogram s h).1.regions.map Region.name).Nodup
      rw [(add_histogram_other s h).1]
      exact h1
    · show ((add_histogram s h).1.histograms.map Histogram.name).Nodup
      rw [add_histogram_upsert]
      exact nodup_upsert Histogram.name s.histograms h h2
    · show ((add_histogram s h).1.histograms2D.map Histogram2D.name).Nodup
      rw [(add_histogram_other s h).2]
      exact h3
  | addHistogram2D h =>
    refine ⟨?_, ?_, ?_⟩
    · show ((add_histogram2D s h).1.regions.map Region.name).Nodup
      rw [(add_histogram2D_other s h).1]
      exact h1
    · show ((add_histogram2D s h).1.histograms.map Histogram.name).Nodup
      rw [(add_histogram2D_other s h).2]
      exact h2
    · show ((add_histogram2D s h).1.histograms2D.map Histogram2D.name).Nodup
      rw [add_histogram2D_upsert]
      exact nodup_upsert Histogram2D.name s.histograms2D (clearPanel2D h) h3
  | addProcess p =>
    refine ⟨?_, ?_, ?_⟩
    · show ((add_process s p).1.regions.map Region.name).Nodup
      rw [(add_process_other s p).1]
      exact h1
    · show ((add_process s p).1.histograms.map Histogram.name).Nodup
      rw [(add_process_other s p).2.1]
      exact h2
    · show ((add_process s p).1.histograms2D.map Histogram2D.name).Nodup
      rw [(add_process_other s p).2.2]
      exact h3

theorem foldl_applyCmd_nodup (cmds : List PlotterCmd) :
    ∀ s : PlotterState,
      (s.regions.map Region.name).Nodup →
      (s.histograms.map Histogram.name).Nodup →
      (s.histograms2D.map Histogram2D.name).Nodup →
      (((cmds.foldl applyCmd s).regions.map Region.name).Nodup ∧
       ((cmds.foldl applyCmd s).histograms.map Histogram.name).Nodup ∧
       ((cmds.foldl applyCmd s).histograms2D.map Histogram2D.name).Nodup) := by
  induction cmds with
  | nil => exact fun s h1 h2 h3 => ⟨h1, h2, h3⟩
  | cons c t ih =>
    intro s h1 h2 h3
    rw [List.foldl_cons]
    obtain ⟨g1, g2, g3⟩ := applyCmd_nodup s c h1 h2 h3
    exact ih (applyCmd s c) g1 g2 g3

/-- C10: after any sequence of registry calls the region, 1D histogram and
2D histogram lists hold at most one entry per name; adding an entry whose
name already exists removes the stored one and appends the new entry (last
registration wins, with the panel of a 2D histogram dropped), while a
process registration under an existing name leaves the stored template list
unchanged (first registration wins for templates). -/
theorem registry_last_wins (cmds : List PlotterCmd) :
    ((runCmds cmds).regions.map Region.name).Nodup ∧
    ((runCmds cmds).histograms.map Histogram.name).Nodup ∧
    ((runCmds cmds).histograms2D.map Histogram2D.name).Nodup ∧
    (∀ r, (add_region (runCmds cmds) r).1.regions =
      (runCmds cmds).regions.filter (fun x => x.name != r.name) ++ [r]) ∧
    (∀ h, (add_histogram (runCmds cmds) h).1.histograms =
      (runCmds cmds).histograms.filter (fun x => x.name != h.name) ++ [h]) ∧
    (∀ h, (add_histogram2D (runCmds cmds) h).1.histograms2D =
      (runCmds cmds).histograms2D.filter
        (fun x => x.name != (clearPanel2D h).name) ++ [clearPanel2D h] ∧
      (clearPanel2D h).name = h.name) ∧
    (∀ p, (add_process (runCmds cmds) p).1.unique_processes =
      if (findTemplate (runCmds cmds).unique_processes p.name).isSome
      then (runCmds cmds).unique_processes
      else (runCmds cmds).unique_processes ++ [templateOf p]) := by
  obtain ⟨g1, g2, g3⟩ := foldl_applyCmd_nodup cmds initState
    List.nodup_nil List.nodup_nil List.nodup_nil
  exact ⟨g1, g2, g3, fun r => add_region_upsert _ r, fun h => add_histogram_upsert _ h,
    fun h => ⟨add_histogram2D_upsert _ h, clearPanel2D_name h⟩,
    fun p => add_process_template_invariant _ p⟩
